import Mathlib

/-!
Verification of the vconfig-go core: a shallow embedding of the
repository's runtime struct inspection helpers (`isStruct`,
`structInfo`, `FieldOk` from the reflection helper file) together with a
model of the versioned JSON codec (`CheckData`, `SaveConfig`,
`LoadConfig`, `GetVersion`).  Go's runtime values are embedded as an
inductive `GoValue` carrying enough type information to mirror what the
`reflect` package observes; `reflect.Value` (which may be the zero
`Value`) is embedded as `RValue`; a panic of the Go code is modelled by
`Option.none` in the result of the embedded function.
-/

namespace VConfig

/-- The `reflect.Kind`s that can appear in this development
(`reflect.String`, `reflect.Int`, `reflect.Bool`, `reflect.Slice`,
`reflect.Struct`, `reflect.Ptr`). -/
inductive GoKind
  | string
  | int
  | bool
  | slice
  | struct_
  | ptr
deriving DecidableEq, Repr

/-- A Go type, as observed through `reflect.Type`: primitives, slices,
structs with named fields, and pointers. -/
inductive GoType
  | string
  | int
  | bool
  | slice (elem : GoType)
  | struct_ (name : String) (fields : List (String × GoType))
  | ptr (elem : GoType)
deriving Repr

/-- A Go runtime value.  A pointer carries its pointee type (so that a
typed nil pointer still has a type, as in Go) and an optional pointee
(`none` is the nil pointer).  A slice carries its element type so that
an empty slice still has a type. -/
inductive GoValue
  | str (s : String)
  | int (n : Int)
  | bool (b : Bool)
  | slice (elem : GoType) (elems : List GoValue)
  | struct_ (name : String) (fields : List (String × GoValue))
  | ptr (elem : GoType) (pointee : Option GoValue)
deriving Repr

/-- Embedding of `reflect.Type.Kind()`. -/
def GoType.kind : GoType → GoKind
  | .string => .string
  | .int => .int
  | .bool => .bool
  | .slice _ => .slice
  | .struct_ _ _ => .struct_
  | .ptr _ => .ptr

/-- Embedding of `reflect.Type.Elem()` for pointer and slice types.  The Go method
panics on other kinds; the source only calls it under a kind guard, so
the other cases are unreachable and returned unchanged. -/
def GoType.elem : GoType → GoType
  | .ptr t => t
  | .slice t => t
  | t => t

mutual
/-- Embedding of `reflect.TypeOf` and `reflect.Value.Type()` on a (non-nil) value. -/
def GoValue.typeOf : GoValue → GoType
  | .str _ => .string
  | .int _ => .int
  | .bool _ => .bool
  | .slice t _ => .slice t
  | .struct_ n fs => .struct_ n (typeOfFields fs)
  | .ptr t _ => .ptr t

/-- Types of a struct's fields, in declaration order. -/
def typeOfFields : List (String × GoValue) → List (String × GoType)
  | [] => []
  | (k, v) :: rest => (k, v.typeOf) :: typeOfFields rest
end

/-- A `reflect.Value`: either a valid value or the zero `Value`
(obtained e.g. by dereferencing a nil pointer). -/
inductive RValue
  | valid (v : GoValue)
  | invalid

/-- Embedding of `reflect.Value.Elem()` on a pointer value: dereference, yielding
the zero `Value` for a nil pointer. -/
def RValue.elem : RValue → RValue
  | .valid (.ptr _ (some v)) => .valid v
  | _ => .invalid

/-- Embedding of `reflect.Value.Type()`: panics (`none`) on the zero `Value`. -/
def RValue.typeP : RValue → Option GoType
  | .valid v => some v.typeOf
  | .invalid => none

/-- Embedding of `reflect.Value.FieldByName`: the named field's value on a struct
value, the zero `Value` otherwise. -/
def RValue.fieldByName : RValue → String → RValue
  | .valid (.struct_ _ fs), name =>
      match fs.lookup name with
      | some v => .valid v
      | none => .invalid
  | _, _ => .invalid

/-- Embedding of `reflect.Type.FieldByName` restricted to what the source reads from
the resulting `StructField` (its type): the first field with the given
name, if any. -/
def GoType.fieldByName : GoType → String → Option GoType
  | .struct_ _ fs, name => fs.lookup name
  | _, _ => none

/-- Embedding of the source's `isStruct`:

```go
func isStruct(v any) bool {
    if v == nil { return false }
    t := reflect.TypeOf(v)
    if t.Kind() == reflect.Ptr { t = t.Elem() }
    return t.Kind() == reflect.Struct
}
```

The argument is `Option GoValue`: `none` is the nil interface. -/
def isStruct (v : Option GoValue) : Bool :=
  match v with
  | none => false
  | some gv =>
    let t := gv.typeOf
    let t := if t.kind = .ptr then t.elem else t
    t.kind = .struct_

/-- Embedding of the source's `structInfo` record: the (possibly
dereferenced) value and its type. -/
structure structInfo where
  value : RValue
  typ : GoType

/-- Embedding of the source's `newStructInfo`:

```go
func newStructInfo(v any) *structInfo {
    val := reflect.ValueOf(v)
    typ := val.Type()
    if typ.Kind() == reflect.Ptr {
        val = val.Elem()
        typ = val.Type()
    }
    return &structInfo{value: val, typ: typ}
}
```

`reflect.ValueOf(nil)` is the zero `Value`, whose `Type()` panics; and
for a nil pointer `val.Elem()` is the zero `Value`, so the second
`val.Type()` panics.  Both panics are modelled as `none`. -/
def newStructInfo (v : Option GoValue) : Option structInfo :=
  match v with
  | none => none
  | some gv =>
    let val := RValue.valid gv
    let typ := gv.typeOf
    if typ.kind = .ptr then
      match (val.elem).typeP with
      | none => none
      | some typ2 => some ⟨val.elem, typ2⟩
    else
      some ⟨val, typ⟩

/-- Embedding of the source's `fieldInfo`, restricted to what the code
reads from it: the field's declared type and its value. -/
structure fieldInfo where
  fieldType : GoType
  value : RValue

/-- Embedding of the source's `structInfo.FieldOk`: the field's
information if a field of that name exists (`none` is `ok == false`). -/
def structInfo.FieldOk (s : structInfo) (name : String) : Option fieldInfo :=
  match s.typ.fieldByName name with
  | none => none
  | some ft => some ⟨ft, s.value.fieldByName name⟩

/-- Embedding of the source's `fieldInfo.Kind`: the kind of the field's
declared type. -/
def fieldInfo.Kind (f : fieldInfo) : GoKind :=
  f.fieldType.kind

/-- The error taxonomy of the spec (section 7).  The Go code carries
human-readable messages; the claims are about the classification, so
the kinds are modelled as bare constructors. -/
inductive VError
  | notARecord
  | missingVersionField
  | wrongVersionFieldType
  | notFound
  | decodeError
  | missingVersion
  | ioError
deriving DecidableEq, Repr

/-- Modelled from the spec: the structural validator `Validate`
(`CheckData` in the repository's API), whose defining source file is
not in the repository snapshot; only the reflection helpers it is built
on are.  Per spec section 4.1 it accepts only struct-shaped values
(seen through one level of pointer indirection), requires a field
literally named `Version`, requires that field's declared type to be
textual, and classifies the three failure cases distinctly.  The result
`none` models a runtime panic of the underlying reflection. -/
def CheckData (v : Option GoValue) : Option (Except VError Unit) :=
  if isStruct v = false then some (.error .notARecord)
  else
    match newStructInfo v with
    | none => none
    | some si =>
      match si.FieldOk "Version" with
      | none => some (.error .missingVersionField)
      | some fi =>
        if fi.Kind = .string then some (.ok ())
        else some (.error .wrongVersionFieldType)

/-- A bare primitive value (string, integer, or boolean). -/
def isPrim : GoValue → Bool
  | .str _ => true
  | .int _ => true
  | .bool _ => true
  | _ => false

inductive Json
  | null
  | bool (b : Bool)
  | num (n : Int)
  | str (s : String)
  | arr (elems : List Json)
  | obj (fields : List (String × Json))
deriving Repr

def digitChar (n : Nat) : Char := Char.ofNat (48 + n)

def isDigitC (c : Char) : Bool := 48 ≤ c.toNat && c.toNat ≤ 57

def digitVal (c : Char) : Nat := c.toNat - 48

def natToRevDigitsAux : Nat → Nat → List Char
  | 0, _ => []
  | fuel+1, n => if n < 10 then [digitChar n] else digitChar (n % 10) :: natToRevDigitsAux fuel (n / 10)

def printNat (n : Nat) : List Char := (natToRevDigitsAux (n+1) n).reverse

def printInt : Int → List Char
  | .ofNat n => printNat n
  | .negSucc m => '-' :: printNat (m+1)

def isWsC (c : Char) : Bool := c = ' ' || c = '\n' || c = '\t'

def skipWs : List Char → List Char
  | [] => []
  | c :: rest => if isWsC c then skipWs rest else c :: rest

def escapeChar (c : Char) : List Char :=
  if c = '"' then ['\\', '"']
  else if c = '\\' then ['\\', '\\']
  else if c = '\n' then ['\\', 'n']
  else if c = '\r' then ['\\', 'r']
  else if c = '\t' then ['\\', 't']
  else [c]

def escapeStr : List Char → List Char
  | [] => []
  | c :: cs => escapeChar c ++ escapeStr cs

def unescapeChar (c : Char) : Option Char :=
  if c = '"' then some '"'
  else if c = '\\' then some '\\'
  else if c = '/' then some '/'
  else if c = 'n' then some '\n'
  else if c = 'r' then some '\r'
  else if c = 't' then some '\t'
  else none

def takeDigits : List Char → List Char × List Char
  | [] => ([], [])
  | c :: rest =>
    if isDigitC c then
      let p := takeDigits rest
      (c :: p.1, p.2)
    else ([], c :: rest)

def digitsToNatRev : List Char → Nat
  | [] => 0
  | c :: rest => digitVal c + 10 * digitsToNatRev rest

def digitsToNat (l : List Char) : Nat := digitsToNatRev l.reverse

def parseNum (s : List Char) : Option (Json × List Char) :=
  match s with
  | [] => none
  | c :: rest =>
    if c = '-' then
      match takeDigits rest with
      | (d :: ds, r) => some (.num (-(digitsToNat (d :: ds) : Int)), r)
      | ([], _) => none
    else
      match takeDigits (c :: rest) with
      | (d :: ds, r) => some (.num ((digitsToNat (d :: ds) : Int)), r)
      | ([], _) => none

def expectChars : List Char → List Char → Option (List Char)
  | [], s => some s
  | c :: cs, d :: s => if c = d then expectChars cs s else none
  | _ :: _, [] => none

mutual
def printJson : Json → List Char
  | .null => ['n','u','l','l']
  | .bool b => cond b ['t','r','u','e'] ['f','a','l','s','e']
  | .num n => printInt n
  | .str s => '"' :: (escapeStr s.data ++ ['"'])
  | .arr [] => ['[', ']']
  | .arr (x :: xs) => '[' :: '\n' :: (printJson x ++ printMoreElems xs ++ ['\n', ']'])
  | .obj [] => ['{', '}']
  | .obj (f :: fs) => '{' :: '\n' :: (printMember f ++ printMoreMembers fs ++ ['\n', '}'])
def printMember : String × Json → List Char
  | (k, v) => '"' :: (escapeStr k.data ++ '"' :: ':' :: printJson v)
def printMoreElems : List Json → List Char
  | [] => []
  | y :: ys => ',' :: (printJson y ++ printMoreElems ys)
def printMoreMembers : List (String × Json) → List Char
  | [] => []
  | f :: fs => ',' :: (printMember f ++ printMoreMembers fs)
end

def parseStr : List Char → Option (String × List Char)
  | [] => none
  | c :: rest =>
    if c = '"' then some ("", rest)
    else if c = '\\' then
      match rest with
      | [] => none
      | e :: rest2 =>
        match unescapeChar e, parseStr rest2 with
        | some u, some (s, r) => some (⟨u :: s.data⟩, r)
        | _, _ => none
    else
      match parseStr rest with
      | some (s, r) => some (⟨c :: s.data⟩, r)
      | none => none

mutual
def parseVal : Nat → List Char → Option (Json × List Char)
  | 0, _ => none
  | fuel+1, s =>
    match skipWs s with
    | [] => none
    | c :: rest =>
      if c = '"' then
        match parseStr rest with
        | some (t, r) => some (.str t, r)
        | none => none
      else if c = '[' then
        let r1 := skipWs rest
        if r1.head? = some ']' then some (.arr [], r1.tail)
        else
          match parseElems fuel r1 with
          | some (xs, r) => some (.arr xs, r)
          | none => none
      else if c = '{' then
        let r1 := skipWs rest
        if r1.head? = some '}' then some (.obj [], r1.tail)
        else
          match parseMembers fuel r1 with
          | some (fs, r) => some (.obj fs, r)
          | none => none
      else if c = 'n' then
        match expectChars ['u','l','l'] rest with
        | some r => some (.null, r)
        | none => none
      else if c = 't' then
        match expectChars ['r','u','e'] rest with
        | some r => some (.bool true, r)
        | none => none
      else if c = 'f' then
        match expectChars ['a','l','s','e'] rest with
        | some r => some (.bool false, r)
        | none => none
      else parseNum (c :: rest)

def parseElems : Nat → List Char → Option (List Json × List Char)
  | 0, _ => none
  | fuel+1, s =>
    match parseVal fuel s with
    | none => none
    | some (x, r) =>
      match skipWs r with
      | ',' :: r2 =>
        match parseElems fuel r2 with
        | some (xs, r3) => some (x :: xs, r3)
        | none => none
      | ']' :: r2 => some ([x], r2)
      | _ => none

def parseMembers : Nat → List Char → Option (List (String × Json) × List Char)
  | 0, _ => none
  | fuel+1, s =>
    match skipWs s with
    | '"' :: r =>
      match parseStr r with
      | none => none
      | some (k, r1) =>
        match skipWs r1 with
        | ':' :: r2 =>
          match parseVal fuel r2 with
          | none => none
          | some (v, r3) =>
            match skipWs r3 with
            | ',' :: r4 =>
              match parseMembers fuel r4 with
              | some (fs, r5) => some ((k, v) :: fs, r5)
              | none => none
            | '}' :: r4 => some ([(k, v)], r4)
            | _ => none
        | _ => none
    | _ => none
end

def parseJson (s : List Char) : Option Json :=
  match parseVal (s.length + 1) s with
  | some (j, rest) => if skipWs rest = [] then some j else none
  | none => none

/-- A character that can open a printed JSON value: never whitespace and
never a closing bracket. -/
abbrev goodStart (c : Char) : Prop := isWsC c = false ∧ c ≠ ']' ∧ c ≠ '}'

def noDigitHead (s : List Char) : Prop := ∀ c cs, s = c :: cs → isDigitC c = false

mutual
def sizeV : Json → Nat
  | .arr xs => 1 + sizeL xs
  | .obj fs => 1 + sizeM fs
  | _ => 1
def sizeL : List Json → Nat
  | [] => 1
  | x :: xs => 1 + sizeV x + sizeL xs
def sizeM : List (String × Json) → Nat
  | [] => 1
  | (_, v) :: fs => 1 + sizeV v + sizeM fs
end

def normCRLF : List Char → List Char
  | [] => []
  | [c] => [c]
  | c :: d :: rest =>
    if c = '\r' ∧ d = '\n' then '\n' :: normCRLF rest
    else c :: normCRLF (d :: rest)

def toCRLF : List Char → List Char
  | [] => []
  | c :: rest => if c = '\n' then '\r' :: '\n' :: toCRLF rest else c :: toCRLF rest

mutual
def encode : GoValue → Json
  | .str s => .str s
  | .int n => .num n
  | .bool b => .bool b
  | .slice _ xs => .arr (encodeList xs)
  | .struct_ _ fs => .obj (encodeFields fs)
  | .ptr _ none => .null
  | .ptr _ (some v) => encode v
def encodeList : List GoValue → List Json
  | [] => []
  | v :: vs => encode v :: encodeList vs
def encodeFields : List (String × GoValue) → List (String × Json)
  | [] => []
  | (k, v) :: fs => (k, encode v) :: encodeFields fs
end

mutual
def zeroValue : GoType → GoValue
  | .string => .str ""
  | .int => .int 0
  | .bool => .bool false
  | .slice t => .slice t []
  | .struct_ n fs => .struct_ n (zeroFields fs)
  | .ptr t => .ptr t none
def zeroFields : List (String × GoType) → List (String × GoValue)
  | [] => []
  | (k, t) :: fs => (k, zeroValue t) :: zeroFields fs
end

mutual
def decodeInto : GoType → Json → Option GoValue
  | .string, .str s => some (.str s)
  | .int, .num n => some (.int n)
  | .bool, .bool b => some (.bool b)
  | .slice t, .arr xs =>
    match decodeList t xs with
    | some vs => some (.slice t vs)
    | none => none
  | .struct_ n fts, .obj jfs =>
    match decodeFields fts jfs with
    | some fs => some (.struct_ n fs)
    | none => none
  | .ptr t, .null => some (.ptr t none)
  | .ptr t, j =>
    match decodeInto t j with
    | some v => some (.ptr t (some v))
    | none => none
  | _, _ => none
termination_by t j => (sizeOf t, sizeOf j)

def decodeList : GoType → List Json → Option (List GoValue)
  | _, [] => some []
  | t, j :: js =>
    match decodeInto t j, decodeList t js with
    | some v, some vs => some (v :: vs)
    | _, _ => none
termination_by t js => (sizeOf t, sizeOf js)

def decodeFields : List (String × GoType) → List (String × Json) →
    Option (List (String × GoValue))
  | [], _ => some []
  | (name, t) :: fts, jfs =>
    match
      (match jfs.lookup name with
       | none => some (zeroValue t)
       | some j => decodeInto t j),
      decodeFields fts jfs with
    | some v, some rest => some ((name, v) :: rest)
    | _, _ => none
termination_by fts jfs => (sizeOf fts, sizeOf jfs)
end

def notNilPtr : GoValue → Prop
  | .ptr _ none => False
  | _ => True

mutual
def wfV : GoValue → Prop
  | .str _ => True
  | .int _ => True
  | .bool _ => True
  | .slice t xs => wfElems t xs
  | .struct_ _ fs => (fs.map Prod.fst).Nodup ∧ wfFields fs
  | .ptr _ none => True
  | .ptr t (some v) => v.typeOf = t ∧ wfV v
def wfElems : GoType → List GoValue → Prop
  | _, [] => True
  | t, v :: vs => (v.typeOf = t ∧ wfV v) ∧ wfElems t vs
def wfFields : List (String × GoValue) → Prop
  | [] => True
  | (_, v) :: fs => wfV v ∧ wfFields fs
end

mutual
def ptrOK : GoValue → Prop
  | .str _ => True
  | .int _ => True
  | .bool _ => True
  | .slice _ xs => ptrOKList xs
  | .struct_ _ fs => ptrOKFields fs
  | .ptr _ none => True
  | .ptr _ (some v) => notNilPtr v ∧ ptrOK v
def ptrOKList : List GoValue → Prop
  | [] => True
  | v :: vs => ptrOK v ∧ ptrOKList vs
def ptrOKFields : List (String × GoValue) → Prop
  | [] => True
  | (_, v) :: fs => ptrOK v ∧ ptrOKFields fs
end

/-- The storage: a map from destination path to textual content
(`none` is “no file at this path”). -/
def FS : Type := String → Option (List Char)

/-- Writing a file replaces the content at that path and nothing else. -/
def FS.write (fs : FS) (path : String) (content : List Char) : FS :=
  fun p => if p = path then some content else fs p

/-- Modelled from the spec: `SaveConfig` (spec 4.2 Save), whose source
file is missing from the snapshot.  Validation runs first; on failure
the validation error is returned unchanged and the destination is not
modified; on success the record is serialized and written, replacing
prior content.  A `none` result models a panic of the underlying
reflection. -/
def SaveConfig (v : Option GoValue) (dest : String) (fs : FS) :
    Option (Except VError Unit × FS) :=
  match CheckData v with
  | none => none
  | some (.error e) => some (.error e, fs)
  | some (.ok _) =>
    match v with
    | some gv => some (.ok (), fs.write dest (printJson (encode gv)))
    | none => none

/-- Modelled from the spec: `LoadConfig` (spec 4.2 Load), whose source
file is missing from the snapshot.  Absent source gives `notFound`;
content is line-ending-normalized and decoded into the caller's target
shape, failing with `decodeError` when malformed; the produced record
is then structurally validated before being returned. -/
def LoadConfig (T : GoType) (src : String) (fs : FS) : Option (Except VError GoValue) :=
  match fs src with
  | none => some (.error .notFound)
  | some content =>
    match parseJson (normCRLF content) with
    | none => some (.error .decodeError)
    | some j =>
      match decodeInto T j with
      | none => some (.error .decodeError)
      | some v =>
        match CheckData (some v) with
        | none => none
        | some (.error e) => some (.error e)
        | some (.ok _) => some (.ok v)

/-- Modelled from the spec: `GetVersion` (spec 4.3 PeekVersion), whose
source file is missing from the snapshot.  It decodes only enough of
the stored encoding to read the `Version` field, with no target shape
from the caller; absent source gives `notFound`, malformed content
`decodeError`, and an encoding without a `Version` field
`missingVersion`. -/
def GetVersion (src : String) (fs : FS) : Except VError String :=
  match fs src with
  | none => .error .notFound
  | some content =>
    match parseJson (normCRLF content) with
    | none => .error .decodeError
    | some (.obj fields) =>
      match fields.lookup "Version" with
      | some (.str s) => .ok s
      | some _ => .error .decodeError
      | none => .error .missingVersion
    | some _ => .error .decodeError

theorem lookup_typeOfFields (fs : List (String × GoValue)) (k : String) :
    (typeOfFields fs).lookup k = (fs.lookup k).map GoValue.typeOf := by
  induction fs with
  | nil => simp [typeOfFields]
  | cons p rest ih =>
    obtain ⟨k2, v⟩ := p
    by_cases h : k = k2
    · subst h; simp [typeOfFields, List.lookup]
    · have hb : (k == k2) = false := by simpa using h
      simp [typeOfFields, List.lookup, hb, ih]

/-- C2: the validator `CheckData` rejects a bare primitive value as
not-a-record, a struct with no field named `Version` as missing-field,
and a struct whose `Version` field is numeric as wrong-field-type —
and these three error kinds are pairwise distinct. -/
theorem checkData_error_kinds :
    (∀ v : GoValue, isPrim v = true →
      CheckData (some v) = some (.error .notARecord)) ∧
    (∀ (name : String) (fs : List (String × GoValue)),
      fs.lookup "Version" = none →
      CheckData (some (.struct_ name fs)) = some (.error .missingVersionField)) ∧
    (∀ (name : String) (fs : List (String × GoValue)) (n : Int),
      fs.lookup "Version" = some (.int n) →
      CheckData (some (.struct_ name fs)) = some (.error .wrongVersionFieldType)) ∧
    (VError.notARecord ≠ VError.missingVersionField ∧
     VError.notARecord ≠ VError.wrongVersionFieldType ∧
     VError.missingVersionField ≠ VError.wrongVersionFieldType) := by
  refine ⟨?_, ?_, ?_, by decide⟩
  · intro v h
    cases v <;> simp_all [isPrim, CheckData, isStruct, GoValue.typeOf, GoType.kind]
  · intro name fs h
    simp [CheckData, isStruct, GoValue.typeOf, GoType.kind, GoType.elem,
      newStructInfo, structInfo.FieldOk, GoType.fieldByName, lookup_typeOfFields, h]
  · intro name fs n h
    simp [CheckData, isStruct, GoValue.typeOf, GoType.kind, GoType.elem,
      newStructInfo, structInfo.FieldOk, GoType.fieldByName, lookup_typeOfFields, h,
      fieldInfo.Kind]

/-- Witness for C2 at concrete inputs. -/
theorem checkData_error_kinds_witness :
    CheckData (some (.int 7)) = some (.error .notARecord) ∧
    CheckData (some (.struct_ "Cfg" [("Name", .str "a")])) =
      some (.error .missingVersionField) ∧
    CheckData (some (.struct_ "Cfg" [("Version", .int 1)])) =
      some (.error .wrongVersionFieldType) :=
  ⟨checkData_error_kinds.1 _ rfl,
   checkData_error_kinds.2.1 "Cfg" _ rfl,
   checkData_error_kinds.2.2.1 "Cfg" _ 1 rfl⟩

/-- C8: validation sees through exactly one level of pointer
indirection: a non-nil pointer to a record is accepted or rejected
exactly as the record itself would be. -/
theorem checkData_pointer_transparent (v : GoValue) (h : v.typeOf.kind = .struct_) :
    CheckData (some (.ptr v.typeOf (some v))) = CheckData (some v) := by
  cases v <;> simp_all [CheckData, isStruct, GoValue.typeOf, GoType.kind, GoType.elem,
    newStructInfo, RValue.elem, RValue.typeP]

/-- Witness for C8 at a concrete record. -/
theorem checkData_pointer_transparent_witness :
    (GoValue.struct_ "S" [("Version", .str "1")]).typeOf.kind = .struct_ ∧
    CheckData (some (.ptr (GoValue.struct_ "S" [("Version", .str "1")]).typeOf
        (some (.struct_ "S" [("Version", .str "1")])))) =
      CheckData (some (.struct_ "S" [("Version", .str "1")])) :=
  ⟨rfl, checkData_pointer_transparent _ rfl⟩

/-- C9: a typed nil pointer to a struct type passes `isStruct` (which
inspects only the type), yet `newStructInfo` on the same value faults
(dereferencing the nil pointer yields the zero `reflect.Value`, whose
`Type()` panics), modelled by the `none` result. -/
theorem nil_pointer_passes_isStruct_but_newStructInfo_faults
    (t : GoType) (h : t.kind = .struct_) :
    isStruct (some (.ptr t none)) = true ∧
    newStructInfo (some (.ptr t none)) = none := by
  refine ⟨?_, ?_⟩
  · simp only [isStruct, GoValue.typeOf]
    cases t <;> simp_all [GoType.kind, GoType.elem]
  · simp [newStructInfo, GoValue.typeOf, GoType.kind, RValue.elem, RValue.typeP]

/-- Witness for C9 at a concrete struct type. -/
theorem nil_pointer_witness :
    isStruct (some (.ptr (.struct_ "S" []) none)) = true ∧
    newStructInfo (some (.ptr (.struct_ "S" []) none)) = none :=
  nil_pointer_passes_isStruct_but_newStructInfo_faults (.struct_ "S" []) rfl

/-- C10: the check `isStruct` dereferences at most one pointer level, so any
value of pointer-to-pointer type is classified as not-a-record. -/
theorem double_pointer_not_a_record (t : GoType) (p : Option GoValue) :
    isStruct (some (.ptr (.ptr t) p)) = false ∧
    CheckData (some (.ptr (.ptr t) p)) = some (.error .notARecord) := by
  refine ⟨?_, ?_⟩ <;>
    simp [CheckData, isStruct, GoValue.typeOf, GoType.kind, GoType.elem]

theorem digitChar_all : ∀ m, m < 10 → isDigitC (digitChar m) = true := by decide

theorem digitVal_digitChar : ∀ m, m < 10 → digitVal (digitChar m) = m := by decide

theorem natToRevDigitsAux_all (fuel : Nat) : ∀ n, n < fuel →
    ∀ c ∈ natToRevDigitsAux fuel n, isDigitC c = true := by
  induction fuel with
  | zero => intro n h; omega
  | succ f ih =>
    intro n _ c hc
    by_cases h10 : n < 10
    · simp [natToRevDigitsAux, h10] at hc
      subst hc; exact digitChar_all n h10
    · simp [natToRevDigitsAux, h10] at hc
      rcases hc with rfl | hc
      · exact digitChar_all _ (Nat.mod_lt _ (by omega))
      · exact ih (n / 10) (by
          have : n / 10 < n := Nat.div_lt_self (by omega) (by omega)
          omega) c hc

theorem digitsToNatRev_aux (fuel : Nat) : ∀ n, n < fuel →
    digitsToNatRev (natToRevDigitsAux fuel n) = n := by
  induction fuel with
  | zero => intro n h; omega
  | succ f ih =>
    intro n hn
    by_cases h10 : n < 10
    · simp [natToRevDigitsAux, h10, digitsToNatRev, digitVal_digitChar n h10]
    · have hdiv : n / 10 < n := Nat.div_lt_self (by omega) (by omega)
      simp [natToRevDigitsAux, h10, digitsToNatRev, ih (n / 10) (by omega),
        digitVal_digitChar (n % 10) (Nat.mod_lt _ (by omega))]
      omega

theorem printNat_all (n : Nat) : ∀ c ∈ printNat n, isDigitC c = true := by
  intro c hc
  exact natToRevDigitsAux_all (n+1) n (by omega) c (List.mem_reverse.mp hc)

theorem printNat_ne_nil (n : Nat) : printNat n ≠ [] := by
  unfold printNat
  intro h
  rw [List.reverse_eq_nil_iff] at h
  by_cases h10 : n < 10 <;> simp [natToRevDigitsAux, h10] at h

theorem digitsToNat_printNat (n : Nat) : digitsToNat (printNat n) = n := by
  unfold digitsToNat printNat
  rw [List.reverse_reverse]
  exact digitsToNatRev_aux (n+1) n (by omega)

theorem takeDigits_append (ds : List Char) (rest : List Char)
    (hds : ∀ c ∈ ds, isDigitC c = true) (hrest : noDigitHead rest) :
    takeDigits (ds ++ rest) = (ds, rest) := by
  induction ds with
  | nil =>
    simp only [List.nil_append]
    cases rest with
    | nil => rfl
    | cons c cs => simp [takeDigits, hrest c cs rfl]
  | cons d ds ih =>
    have hd : isDigitC d = true := hds d (by simp)
    simp [takeDigits, hd, ih (fun c hc => hds c (by simp [hc]))]

theorem expectChars_append (p s : List Char) : expectChars p (p ++ s) = some s := by
  induction p with
  | nil => rfl
  | cons c cs ih => simp [expectChars, ih]

theorem skipWs_not_ws (c : Char) (s : List Char) (h : isWsC c = false) :
    skipWs (c :: s) = c :: s := by
  simp [skipWs, h]

theorem skipWs_ws (c : Char) (s : List Char) (h : isWsC c = true) :
    skipWs (c :: s) = skipWs s := by
  simp [skipWs, h]

theorem parseStr_escapeStr (cs : List Char) (rest : List Char) :
    parseStr (escapeStr cs ++ '"' :: rest) = some (⟨cs⟩, rest) := by
  induction cs with
  | nil =>
    show parseStr ('"' :: rest) = _
    rw [parseStr.eq_def]
    simp
  | cons c cs ih =>
    show parseStr (escapeChar c ++ escapeStr cs ++ '"' :: rest) = _
    by_cases h1 : c = '"'
    · subst h1
      simp only [escapeChar, if_pos rfl, List.cons_append, List.nil_append]
      rw [parseStr.eq_def]
      simp [unescapeChar, ih]
    · by_cases h2 : c = '\\'
      · subst h2
        simp only [escapeChar, reduceIte, List.cons_append, List.nil_append]
        rw [parseStr.eq_def]
        simp [unescapeChar, ih]
      · by_cases h3 : c = '\n'
        · subst h3
          simp only [escapeChar, reduceIte, List.cons_append, List.nil_append]
          rw [parseStr.eq_def]
          simp [unescapeChar, ih]
        · by_cases h4 : c = '\r'
          · subst h4
            simp only [escapeChar, reduceIte, List.cons_append, List.nil_append]
            rw [parseStr.eq_def]
            simp [unescapeChar, ih]
          · by_cases h5 : c = '\t'
            · subst h5
              simp only [escapeChar, reduceIte, List.cons_append, List.nil_append]
              rw [parseStr.eq_def]
              simp [unescapeChar, ih]
            · simp only [escapeChar, h1, h2, h3, h4, h5, if_false, List.cons_append,
                List.nil_append, if_neg]
              rw [parseStr.eq_def]
              simp [h1, h2, ih]

theorem digit_not_special (c : Char) (h : isDigitC c = true) :
    isWsC c = false ∧ c ≠ '-' ∧ c ≠ '"' ∧ c ≠ '[' ∧ c ≠ '{' ∧ c ≠ 'n' ∧ c ≠ 't' ∧
    c ≠ 'f' ∧ c ≠ ']' ∧ c ≠ '}' ∧ c ≠ ',' := by
  refine ⟨?_, ?_, ?_, ?_, ?_, ?_, ?_, ?_, ?_, ?_, ?_⟩
  · rcases hb : isWsC c with _ | _
    · rfl
    · exfalso
      have hor : c = ' ' ∨ c = '\n' ∨ c = '\t' := by
        by_contra hno
        push_neg at hno
        simp [isWsC, hno.1, hno.2.1, hno.2.2] at hb
      rcases hor with rfl | rfl | rfl <;> revert h <;> decide
  all_goals (rintro rfl; revert h; decide)

theorem parseNum_printInt (i : Int) (rest : List Char) (hrest : noDigitHead rest) :
    parseNum (printInt i ++ rest) = some (.num i, rest) := by
  cases i with
  | ofNat n =>
    obtain ⟨d, ds, hpn⟩ : ∃ d ds, printNat n = d :: ds := by
      cases hh : printNat n with
      | nil => exact absurd hh (printNat_ne_nil n)
      | cons d ds => exact ⟨d, ds, rfl⟩
    have hd : isDigitC d = true := printNat_all n d (by rw [hpn]; simp)
    have hfacts := digit_not_special d hd
    have ht : takeDigits (printNat n ++ rest) = (printNat n, rest) :=
      takeDigits_append _ _ (printNat_all n) hrest
    show parseNum (printNat n ++ rest) = _
    rw [hpn] at ht ⊢
    simp only [List.cons_append] at ht ⊢
    rw [parseNum.eq_def]
    simp only [hfacts.2.1, if_false, reduceIte, ht]
    have : digitsToNat (d :: ds) = n := by
      rw [← hpn]; exact digitsToNat_printNat n
    simp [this]
  | negSucc m =>
    obtain ⟨d, ds, hpn⟩ : ∃ d ds, printNat (m+1) = d :: ds := by
      cases hh : printNat (m+1) with
      | nil => exact absurd hh (printNat_ne_nil (m+1))
      | cons d ds => exact ⟨d, ds, rfl⟩
    have ht : takeDigits (printNat (m+1) ++ rest) = (printNat (m+1), rest) :=
      takeDigits_append _ _ (printNat_all (m+1)) hrest
    show parseNum (('-' :: printNat (m+1)) ++ rest) = _
    rw [hpn] at ht
    simp only [List.cons_append] at ht
    simp only [List.cons_append]
    rw [parseNum.eq_def]
    simp only [reduceIte]
    rw [hpn]
    simp only [List.cons_append]
    rw [ht]
    have : digitsToNat (d :: ds) = m + 1 := by
      rw [← hpn]; exact digitsToNat_printNat (m+1)
    simp only [this, Int.negSucc_eq]
    norm_num

theorem printJson_starts (j : Json) :
    ∃ c cs, printJson j = c :: cs ∧ goodStart c := by
  cases j with
  | null => exact ⟨'n', _, rfl, by decide⟩
  | bool b =>
    cases b
    · exact ⟨'f', _, rfl, by decide⟩
    · exact ⟨'t', _, rfl, by decide⟩
  | num i =>
    cases i with
    | ofNat n =>
      obtain ⟨d, ds, hpn⟩ : ∃ d ds, printNat n = d :: ds := by
        cases hh : printNat n with
        | nil => exact absurd hh (printNat_ne_nil n)
        | cons d ds => exact ⟨d, ds, rfl⟩
      have hd : isDigitC d = true := printNat_all n d (by rw [hpn]; simp)
      have hfacts := digit_not_special d hd
      refine ⟨d, ds, ?_, hfacts.1, ?_, ?_⟩
      · rw [printJson]; exact hpn
      · exact hfacts.2.2.2.2.2.2.2.2.1
      · exact hfacts.2.2.2.2.2.2.2.2.2.1
    | negSucc m =>
      exact ⟨'-', _, by rw [printJson, printInt], by decide⟩
  | str s => exact ⟨'"', _, by rw [printJson], by decide⟩
  | arr xs =>
    cases xs with
    | nil => exact ⟨'[', _, rfl, by decide⟩
    | cons x xs =>
      exact ⟨'[', '\n' :: (printJson x ++ printMoreElems xs ++ ['\n', ']']),
        by rw [printJson], by decide⟩
  | obj fs =>
    cases fs with
    | nil => exact ⟨'{', _, rfl, by decide⟩
    | cons f fs =>
      obtain ⟨k, v⟩ := f
      exact ⟨'{', '\n' :: (printMember (k, v) ++ printMoreMembers fs ++ ['\n', '}']),
        by rw [printJson], by decide⟩

theorem sizeV_pos (j : Json) : 1 ≤ sizeV j := by
  cases j <;> simp [sizeV]

theorem sizeL_pos (xs : List Json) : 1 ≤ sizeL xs := by
  cases xs <;> simp [sizeL] <;> omega

theorem sizeM_pos (fs : List (String × Json)) : 1 ≤ sizeM fs := by
  cases fs with
  | nil => simp [sizeM]
  | cons f fs => obtain ⟨k, v⟩ := f; simp [sizeM]; omega

theorem noDigitHead_cons (c : Char) (cs : List Char) (h : isDigitC c = false) :
    noDigitHead (c :: cs) := by
  intro d ds hd
  cases hd
  exact h

theorem parseStr_escapeStr2 (k : String) (rest : List Char) :
    parseStr (escapeStr k.data ++ '"' :: rest) = some (k, rest) :=
  parseStr_escapeStr k.data rest

theorem printNat_cons (n : Nat) : ∃ d ds, printNat n = d :: ds ∧ isDigitC d = true := by
  cases hh : printNat n with
  | nil => exact absurd hh (printNat_ne_nil n)
  | cons d ds =>
    refine ⟨d, ds, rfl, printNat_all n d ?_⟩
    rw [hh]; simp

theorem noDigitHead_elems (xs : List Json) (t : List Char) :
    noDigitHead (printMoreElems xs ++ '\n' :: ']' :: t) := by
  cases xs with
  | nil => rw [printMoreElems]; exact noDigitHead_cons _ _ (by decide)
  | cons y ys =>
    rw [printMoreElems]
    simp only [List.cons_append]
    exact noDigitHead_cons _ _ (by decide)

theorem noDigitHead_members (fs : List (String × Json)) (t : List Char) :
    noDigitHead (printMoreMembers fs ++ '\n' :: '}' :: t) := by
  cases fs with
  | nil => rw [printMoreMembers]; exact noDigitHead_cons _ _ (by decide)
  | cons g gs =>
    rw [printMoreMembers]
    simp only [List.cons_append]
    exact noDigitHead_cons _ _ (by decide)

theorem parse_print_aux (fuel : Nat) :
    (∀ j rest, sizeV j ≤ fuel → noDigitHead rest →
      parseVal fuel (printJson j ++ rest) = some (j, rest)) ∧
    (∀ x xs rest, sizeL (x :: xs) ≤ fuel →
      parseElems fuel (printJson x ++ (printMoreElems xs ++ '\n' :: ']' :: rest)) =
        some (x :: xs, rest)) ∧
    (∀ k v fs rest, sizeM ((k, v) :: fs) ≤ fuel →
      parseMembers fuel (printMember (k, v) ++ (printMoreMembers fs ++ '\n' :: '}' :: rest)) =
        some ((k, v) :: fs, rest)) := by
  induction fuel with
  | zero =>
    refine ⟨?_, ?_, ?_⟩
    · intro j rest hsz _
      exact absurd hsz (by have := sizeV_pos j; omega)
    · intro x xs rest hsz
      have h1 := sizeV_pos x
      have h2 := sizeL_pos xs
      simp [sizeL] at hsz
    · intro k v fs rest hsz
      have h1 := sizeV_pos v
      have h2 := sizeM_pos fs
      simp [sizeM] at hsz
  | succ f ih =>
    obtain ⟨ihA, ihB, ihM⟩ := ih
    refine ⟨?_, ?_, ?_⟩
    · -- parseVal on a printed value
      intro j rest hsz hrest
      rw [parseVal]
      cases j with
      | null =>
        rw [printJson]
        simp only [List.cons_append, List.nil_append]
        rw [skipWs_not_ws _ _ (by decide)]
        simp [expectChars]
      | bool b =>
        cases b <;>
          (rw [printJson]
           simp only [Bool.cond_true, Bool.cond_false, List.cons_append, List.nil_append]
           rw [skipWs_not_ws _ _ (by decide)]
           simp [expectChars])
      | num i =>
        rw [printJson]
        have hnum := parseNum_printInt i rest hrest
        cases i with
        | ofNat n =>
          obtain ⟨d, ds, hpn, hd⟩ := printNat_cons n
          obtain ⟨hw, hm, h2, h3, h4, h5, h6, h7, h8, h9, h10⟩ := digit_not_special d hd
          show (match skipWs (printInt (Int.ofNat n) ++ rest) with
            | [] => none
            | c :: r => _) = _
          rw [printInt] at hnum ⊢
          rw [hpn] at hnum ⊢
          simp only [List.cons_append]
          rw [skipWs_not_ws _ _ hw]
          simp only [h2, h3, h4, h5, h6, h7, if_false]
          simpa using hnum
        | negSucc m =>
          show (match skipWs (printInt (Int.negSucc m) ++ rest) with
            | [] => none
            | c :: r => _) = _
          rw [printInt] at hnum ⊢
          simp only [List.cons_append]
          rw [skipWs_not_ws _ _ (by decide)]
          simp only [reduceIte]
          simpa using hnum
      | str s =>
        rw [printJson]
        simp only [List.cons_append, List.append_assoc, List.nil_append]
        rw [skipWs_not_ws _ _ (by decide)]
        simp only [reduceIte]
        rw [parseStr_escapeStr]
      | arr xs =>
        cases xs with
        | nil =>
          rw [printJson]
          simp only [List.cons_append, List.nil_append]
          rw [skipWs_not_ws _ _ (by decide)]
          simp only [reduceIte]
          rw [skipWs_not_ws _ _ (by decide)]
          simp
        | cons x xs =>
          rw [printJson]
          simp only [List.cons_append, List.append_assoc, List.nil_append]
          rw [skipWs_not_ws _ _ (by decide)]
          simp only [reduceIte]
          rw [skipWs_ws _ _ (by decide)]
          obtain ⟨c0, cs0, hpx, hws0, hner, hneb⟩ := printJson_starts x
          rw [hpx]
          simp only [List.cons_append]
          rw [skipWs_not_ws _ _ hws0]
          rw [← List.cons_append, ← hpx]
          have hb := ihB x xs rest (by simp [sizeV] at hsz; omega)
          simp only [List.append_assoc] at hb
          rw [hb, hpx]
          simp [hner]
      | obj fs =>
        cases fs with
        | nil =>
          rw [printJson]
          simp only [List.cons_append, List.nil_append]
          rw [skipWs_not_ws _ _ (by decide)]
          simp only [reduceIte]
          rw [skipWs_not_ws _ _ (by decide)]
          simp
        | cons g fs =>
          obtain ⟨k, v⟩ := g
          rw [printJson]
          simp only [List.cons_append, List.append_assoc, List.nil_append]
          rw [skipWs_not_ws _ _ (by decide)]
          simp only [reduceIte]
          rw [skipWs_ws _ _ (by decide)]
          rw [printMember]
          simp only [List.cons_append, List.append_assoc]
          rw [skipWs_not_ws _ _ (by decide)]
          have hm := ihM k v fs rest (by simp [sizeV] at hsz; omega)
          rw [printMember] at hm
          simp only [List.cons_append, List.append_assoc] at hm
          rw [hm]
          simp
    · -- parseElems on a printed element list
      intro x xs rest hsz
      rw [parseElems]
      have hx : sizeV x ≤ f := by
        have := sizeL_pos xs
        rw [sizeL] at hsz
        omega
      rw [ihA x _ hx (noDigitHead_elems xs rest)]
      cases xs with
      | nil =>
        simp [printMoreElems, skipWs, isWsC]
      | cons y ys =>
        rw [printMoreElems]
        simp only [List.cons_append, List.append_assoc]
        rw [skipWs_not_ws _ _ (by decide)]
        have hy : sizeL (y :: ys) ≤ f := by
          have := sizeV_pos x
          rw [sizeL] at hsz
          omega
        have hb := ihB y ys rest hy
        simp only [List.append_assoc] at hb
        simp [hb]
    · -- parseMembers on a printed member list
      intro k v fs rest hsz
      rw [parseMembers]
      rw [printMember]
      simp only [List.cons_append, List.append_assoc]
      rw [skipWs_not_ws _ _ (by decide)]
      have hkstr := parseStr_escapeStr2 k (':' :: (printJson v ++ (printMoreMembers fs ++ '\n' :: '}' :: rest)))
      simp only [hkstr]
      rw [skipWs_not_ws _ _ (by decide)]
      have hv : sizeV v ≤ f := by
        have := sizeM_pos fs
        rw [sizeM] at hsz
        omega
      have ha := ihA v (printMoreMembers fs ++ '\n' :: '}' :: rest) hv (noDigitHead_members fs rest)
      simp only [ha]
      cases fs with
      | nil =>
        simp [printMoreMembers, skipWs, isWsC]
      | cons g gs =>
        obtain ⟨k2, v2⟩ := g
        rw [printMoreMembers]
        simp only [List.cons_append, List.append_assoc]
        rw [skipWs_not_ws _ _ (by decide)]
        have hg : sizeM ((k2, v2) :: gs) ≤ f := by
          have := sizeV_pos v
          rw [sizeM] at hsz
          omega
        have hm := ihM k2 v2 gs rest hg
        simp [hm]

theorem json_mem_ind (P : Json → Prop)
    (hnull : P .null) (hbool : ∀ b, P (.bool b)) (hnum : ∀ n, P (.num n))
    (hstr : ∀ s, P (.str s))
    (harr : ∀ xs, (∀ x ∈ xs, P x) → P (.arr xs))
    (hobj : ∀ fs, (∀ p ∈ fs, P p.2) → P (.obj fs)) : ∀ j, P j
  | .null => hnull
  | .bool b => hbool b
  | .num n => hnum n
  | .str s => hstr s
  | .arr xs => harr xs (fun x hx =>
      have : sizeOf x < 1 + sizeOf xs := by
        have := List.sizeOf_lt_of_mem hx
        omega
      json_mem_ind P hnull hbool hnum hstr harr hobj x)
  | .obj fs => hobj fs (fun p hp =>
      have : sizeOf p.2 < 1 + sizeOf fs := by
        have h1 := List.sizeOf_lt_of_mem hp
        have h2 : sizeOf p.2 < sizeOf p := by
          obtain ⟨a, b⟩ := p
          simp only [Prod.mk.sizeOf_spec]
          simp
        omega
      json_mem_ind P hnull hbool hnum hstr harr hobj p.2)
termination_by j => sizeOf j

theorem sizeL_le (xs : List Json) (h : ∀ x ∈ xs, sizeV x ≤ (printJson x).length) :
    sizeL xs ≤ (printMoreElems xs).length + 2 := by
  induction xs with
  | nil => rw [sizeL, printMoreElems]; simp
  | cons y ys ihy =>
    rw [sizeL, printMoreElems]
    have hy := h y (by simp)
    have hys := ihy (fun x hx => h x (by simp [hx]))
    simp
    omega

theorem sizeM_le (fs : List (String × Json))
    (h : ∀ p ∈ fs, sizeV p.2 ≤ (printJson p.2).length) :
    sizeM fs ≤ (printMoreMembers fs).length + 2 := by
  induction fs with
  | nil => rw [sizeM, printMoreMembers]; simp
  | cons g gs ihg =>
    obtain ⟨k, v⟩ := g
    rw [sizeM, printMoreMembers, printMember]
    have hv := h (k, v) (by simp)
    have hgs := ihg (fun p hp => h p (by simp [hp]))
    simp at hv ⊢
    omega

theorem sizeV_le_length (j : Json) : sizeV j ≤ (printJson j).length := by
  induction j using json_mem_ind with
  | hnull => rw [printJson]; simp [sizeV]
  | hbool b => cases b <;> (rw [printJson]; simp [sizeV])
  | hnum n =>
    have h1 : 1 ≤ (printInt n).length := by
      cases n with
      | ofNat m =>
        rw [printInt]
        obtain ⟨d, ds, hpn, _⟩ := printNat_cons m
        rw [hpn]; simp
      | negSucc m => rw [printInt]; simp
    rw [printJson]
    have h2 : sizeV (.num n) = 1 := by simp [sizeV]
    omega
  | hstr s =>
    rw [printJson]
    have h2 : sizeV (.str s) = 1 := by simp [sizeV]
    simp [h2]
  | harr xs ih =>
    cases xs with
    | nil => rw [printJson, sizeV, sizeL]; simp
    | cons x xs =>
      rw [printJson, sizeV, sizeL]
      have hx := ih x (by simp)
      have hxs := sizeL_le xs (fun z hz => ih z (by simp [hz]))
      simp
      omega
  | hobj fs ih =>
    cases fs with
    | nil => rw [printJson, sizeV, sizeM]; simp
    | cons g gs =>
      obtain ⟨k, v⟩ := g
      rw [printJson, sizeV, sizeM, printMember]
      have hv := ih (k, v) (by simp)
      have hgs := sizeM_le gs (fun p hp => ih p (by simp [hp]))
      simp at hv ⊢
      omega

theorem parseJson_printJson (j : Json) : parseJson (printJson j) = some j := by
  unfold parseJson
  have h := (parse_print_aux ((printJson j).length + 1)).1 j []
    (by have := sizeV_le_length j; omega) (fun c cs h => by cases h)
  rw [List.append_nil] at h
  rw [h]
  simp [skipWs]

theorem normCRLF_no_cr (s : List Char) (h : '\r' ∉ s) : normCRLF s = s := by
  match s with
  | [] => rfl
  | [c] => rfl
  | c :: d :: rest =>
    rw [normCRLF]
    rw [if_neg (by
      rintro ⟨rfl, -⟩
      exact h (by simp))]
    have := normCRLF_no_cr (d :: rest) (fun hm => h (by simp at hm ⊢; tauto))
    rw [this]

theorem toCRLF_ne_nil (c : Char) (rest : List Char) : toCRLF (c :: rest) ≠ [] := by
  rw [toCRLF]
  by_cases h : c = '\n' <;> simp [h]

theorem normCRLF_toCRLF (s : List Char) (h : '\r' ∉ s) : normCRLF (toCRLF s) = s := by
  match s with
  | [] => rfl
  | c :: rest =>
    have hrest : '\r' ∉ rest := fun hm => h (by simp [hm])
    have hc : c ≠ '\r' := fun hc => h (by simp [hc])
    rw [toCRLF]
    by_cases hn : c = '\n'
    · subst hn
      simp only [if_pos rfl]
      rw [normCRLF.eq_def]
      show (if ('\r' : Char) = '\r' ∧ ('\n' : Char) = '\n' then '\n' :: normCRLF (toCRLF rest)
        else '\r' :: normCRLF ('\n' :: toCRLF rest)) = '\n' :: rest
      rw [if_pos ⟨rfl, rfl⟩, normCRLF_toCRLF rest hrest]
    · rw [if_neg hn]
      cases htr : toCRLF rest with
      | nil =>
        have : rest = [] := by
          cases rest with
          | nil => rfl
          | cons a t => exact absurd htr (toCRLF_ne_nil a t)
        subst this
        rfl
      | cons d X =>
        rw [normCRLF.eq_def]
        show (if c = '\r' ∧ d = '\n' then '\n' :: normCRLF X
          else c :: normCRLF (d :: X)) = c :: rest
        rw [if_neg (by rintro ⟨rfl, -⟩; exact hc rfl)]
        rw [← htr, normCRLF_toCRLF rest hrest]

theorem cr_not_escapeStr (cs : List Char) : '\r' ∉ escapeStr cs := by
  induction cs with
  | nil => simp [escapeStr]
  | cons c cs ih =>
    rw [escapeStr]
    simp only [List.mem_append]
    rintro (hc | hc)
    · rw [escapeChar] at hc
      by_cases h1 : c = '"'
      · simp [h1] at hc
      · by_cases h2 : c = '\\'
        · simp [h1, h2] at hc
        · by_cases h3 : c = '\n'
          · simp [h1, h2, h3] at hc
          · by_cases h4 : c = '\r'
            · simp [h1, h2, h3, h4] at hc
            · by_cases h5 : c = '\t'
              · simp [h1, h2, h3, h4, h5] at hc
              · simp [h1, h2, h3, h4, h5] at hc
                exact h4 hc.symm
    · exact ih hc

theorem cr_not_printInt (i : Int) : '\r' ∉ printInt i := by
  cases i with
  | ofNat n =>
    rw [printInt]
    intro hm
    have := printNat_all n '\r' hm
    simp [isDigitC] at this
  | negSucc m =>
    rw [printInt]
    intro hm
    rcases List.mem_cons.mp hm with h | h
    · exact absurd h (by decide)
    · have := printNat_all (m+1) '\r' h
      simp [isDigitC] at this

theorem cr_not_printMoreElems (xs : List Json)
    (h : ∀ x ∈ xs, '\r' ∉ printJson x) : '\r' ∉ printMoreElems xs := by
  induction xs with
  | nil => rw [printMoreElems]; simp
  | cons y ys ih =>
    rw [printMoreElems]
    simp only [List.mem_cons, List.mem_append, not_or]
    exact ⟨by decide, h y (by simp), ih (fun x hx => h x (by simp [hx]))⟩

theorem cr_not_printMember (k : String) (v : Json) (hv : '\r' ∉ printJson v) :
    '\r' ∉ printMember (k, v) := by
  rw [printMember]
  simp only [List.mem_cons, List.mem_append, not_or]
  exact ⟨by decide, cr_not_escapeStr _, by decide, by decide, hv⟩

theorem cr_not_printMoreMembers (fs : List (String × Json))
    (h : ∀ p ∈ fs, '\r' ∉ printJson p.2) : '\r' ∉ printMoreMembers fs := by
  induction fs with
  | nil => rw [printMoreMembers]; simp
  | cons g gs ih =>
    obtain ⟨k, v⟩ := g
    rw [printMoreMembers]
    simp only [List.mem_cons, List.mem_append, not_or]
    exact ⟨by decide, cr_not_printMember k v (h (k, v) (by simp)),
      ih (fun p hp => h p (by simp [hp]))⟩

theorem cr_not_printJson (j : Json) : '\r' ∉ printJson j := by
  induction j using json_mem_ind with
  | hnull => rw [printJson]; decide
  | hbool b => cases b <;> (rw [printJson]; decide)
  | hnum n => rw [printJson]; exact cr_not_printInt n
  | hstr s =>
    rw [printJson]
    simp only [List.mem_cons, List.mem_append, not_or]
    exact ⟨by decide, cr_not_escapeStr _, by decide⟩
  | harr xs ih =>
    cases xs with
    | nil => rw [printJson]; decide
    | cons x xs =>
      rw [printJson]
      simp only [List.mem_cons, List.mem_append, not_or]
      exact ⟨by decide, by decide, ⟨ih x (by simp),
        cr_not_printMoreElems xs (fun z hz => ih z (by simp [hz]))⟩, by decide, by decide⟩
  | hobj fs ih =>
    cases fs with
    | nil => rw [printJson]; decide
    | cons g gs =>
      obtain ⟨k, v⟩ := g
      rw [printJson]
      simp only [List.mem_cons, List.mem_append, not_or]
      exact ⟨by decide, by decide, ⟨cr_not_printMember k v (ih (k, v) (by simp)),
        cr_not_printMoreMembers gs (fun p hp => ih p (by simp [hp]))⟩, by decide, by decide⟩

theorem goValue_mem_ind (P : GoValue → Prop)
    (hstr : ∀ s, P (.str s)) (hint : ∀ n, P (.int n)) (hbool : ∀ b, P (.bool b))
    (hslice : ∀ t xs, (∀ x ∈ xs, P x) → P (.slice t xs))
    (hstruct : ∀ n fs, (∀ p ∈ fs, P p.2) → P (.struct_ n fs))
    (hptrn : ∀ t, P (.ptr t none))
    (hptrs : ∀ t v, P v → P (.ptr t (some v))) : ∀ v, P v
  | .str s => hstr s
  | .int n => hint n
  | .bool b => hbool b
  | .slice t xs => hslice t xs (fun x hx =>
      have : sizeOf x < 1 + sizeOf t + sizeOf xs := by
        have := List.sizeOf_lt_of_mem hx
        omega
      goValue_mem_ind P hstr hint hbool hslice hstruct hptrn hptrs x)
  | .struct_ n fs => hstruct n fs (fun p hp =>
      have : sizeOf p.2 < 1 + sizeOf n + sizeOf fs := by
        have h1 := List.sizeOf_lt_of_mem hp
        have h2 : sizeOf p.2 < sizeOf p := by
          obtain ⟨a, b⟩ := p
          simp only [Prod.mk.sizeOf_spec]
          simp
        omega
      goValue_mem_ind P hstr hint hbool hslice hstruct hptrn hptrs p.2)
  | .ptr t none => hptrn t
  | .ptr t (some v) => hptrs t v
      (have : sizeOf v < 1 + sizeOf t + sizeOf (some v) := by
        simp only [Option.some.sizeOf_spec]
        omega
       goValue_mem_ind P hstr hint hbool hslice hstruct hptrn hptrs v)
termination_by v => sizeOf v

theorem encode_ne_null (v : GoValue) : notNilPtr v → ptrOK v → encode v ≠ .null := by
  induction v using goValue_mem_ind with
  | hstr s => intro _ _; rw [encode]; simp
  | hint n => intro _ _; rw [encode]; simp
  | hbool b => intro _ _; rw [encode]; simp
  | hslice t xs _ => intro _ _; rw [encode]; simp
  | hstruct n fs _ => intro _ _; rw [encode]; simp
  | hptrn t => intro h1 _; simp [notNilPtr] at h1
  | hptrs t v ih =>
    intro _ h2
    rw [ptrOK] at h2
    rw [encode]
    exact ih h2.1 h2.2

theorem decodeList_encodeList (t : GoType) :
    ∀ xs : List GoValue,
      (∀ x ∈ xs, wfV x → ptrOK x → decodeInto x.typeOf (encode x) = some x) →
      wfElems t xs → ptrOKList xs → decodeList t (encodeList xs) = some xs := by
  intro xs
  induction xs with
  | nil => intro _ _ _; rw [encodeList, decodeList]
  | cons y ys ihy =>
    intro h hwf hok
    rw [wfElems] at hwf
    rw [ptrOKList] at hok
    rw [encodeList, decodeList]
    have hy := h y (by simp) hwf.1.2 hok.1
    rw [hwf.1.1] at hy
    rw [hy, ihy (fun x hx => h x (by simp [hx])) hwf.2 hok.2]

theorem lookup_encodeFields (fs : List (String × GoValue)) (k : String) (v : GoValue)
    (hnd : (fs.map Prod.fst).Nodup) (hmem : (k, v) ∈ fs) :
    (encodeFields fs).lookup k = some (encode v) := by
  induction fs with
  | nil => simp at hmem
  | cons g gs ih =>
    obtain ⟨k2, v2⟩ := g
    rw [List.map_cons, List.nodup_cons] at hnd
    rw [encodeFields]
    rcases List.mem_cons.mp hmem with heq | hmem2
    · obtain ⟨rfl, rfl⟩ : k = k2 ∧ v = v2 := by
        simpa [Prod.ext_iff] using heq
      simp [List.lookup]
    · have hk : k ≠ k2 := by
        rintro rfl
        exact hnd.1 (List.mem_map.mpr ⟨(k, v), hmem2, rfl⟩)
      have hb : (k == k2) = false := by simpa using hk
      simp only [List.lookup, hb]
      exact ih hnd.2 hmem2

theorem decodeFields_encode :
    ∀ (fs : List (String × GoValue)) (jfs : List (String × Json)),
      (∀ p ∈ fs, wfV p.2 → ptrOK p.2 → decodeInto p.2.typeOf (encode p.2) = some p.2) →
      wfFields fs → ptrOKFields fs →
      (∀ p ∈ fs, jfs.lookup p.1 = some (encode p.2)) →
      decodeFields (typeOfFields fs) jfs = some fs := by
  intro fs
  induction fs with
  | nil => intro jfs _ _ _ _; rw [typeOfFields, decodeFields]
  | cons g gs ih =>
    intro jfs h hwf hok hlk
    obtain ⟨k, v⟩ := g
    rw [wfFields] at hwf
    rw [ptrOKFields] at hok
    rw [typeOfFields, decodeFields]
    have hkv := hlk (k, v) (by simp)
    have hv := h (k, v) (by simp) hwf.1 hok.1
    simp only at hkv hv
    rw [hkv]
    rw [ih jfs (fun p hp => h p (by simp [hp])) hwf.2 hok.2
      (fun p hp => hlk p (by simp [hp]))]
    simp [hv]

theorem decode_encode (v : GoValue) :
    wfV v → ptrOK v → decodeInto v.typeOf (encode v) = some v := by
  induction v using goValue_mem_ind with
  | hstr s => intro _ _; rw [GoValue.typeOf, encode, decodeInto]
  | hint n => intro _ _; rw [GoValue.typeOf, encode, decodeInto]
  | hbool b => intro _ _; rw [GoValue.typeOf, encode, decodeInto]
  | hslice t xs ih =>
    intro hwf hok
    rw [wfV] at hwf
    rw [ptrOK] at hok
    rw [GoValue.typeOf, encode, decodeInto]
    rw [decodeList_encodeList t xs ih hwf hok]
  | hstruct n fs ih =>
    intro hwf hok
    rw [wfV] at hwf
    rw [ptrOK] at hok
    rw [GoValue.typeOf, encode, decodeInto]
    rw [decodeFields_encode fs (encodeFields fs) ih hwf.2 hok
      (fun p hp => lookup_encodeFields fs p.1 p.2 hwf.1 (by simpa using hp))]
  | hptrn t => intro _ _; rw [GoValue.typeOf, encode, decodeInto]
  | hptrs t v ih =>
    intro hwf hok
    rw [wfV] at hwf
    rw [ptrOK] at hok
    rw [GoValue.typeOf, encode]
    have hnn : encode v ≠ .null := encode_ne_null v hok.1 hok.2
    have hv := ih hwf.2 hok.2
    rw [hwf.1] at hv
    cases henc : encode v with
    | null => exact absurd henc hnn
    | str s => rw [henc] at hv; simp [decodeInto, hv]
    | bool b => rw [henc] at hv; simp [decodeInto, hv]
    | num m => rw [henc] at hv; simp [decodeInto, hv]
    | arr a => rw [henc] at hv; simp [decodeInto, hv]
    | obj o => rw [henc] at hv; simp [decodeInto, hv]

theorem lookup_none_of_not_fst {β : Type} (k : String) (l : List (String × β))
    (h : k ∉ l.map Prod.fst) : l.lookup k = none := by
  induction l with
  | nil => rfl
  | cons g gs ih =>
    obtain ⟨k2, b⟩ := g
    rw [List.map_cons] at h
    have hk : k ≠ k2 := fun he => h (by simp [he])
    have hb : (k == k2) = false := by simpa using hk
    simp only [List.lookup, hb]
    exact ih (fun hm => h (by simp [hm]))

theorem checkData_struct_no_version (name : String) (fs : List (String × GoValue))
    (h : fs.lookup "Version" = none) :
    CheckData (some (.struct_ name fs)) = some (.error .missingVersionField) := by
  simp [CheckData, isStruct, GoValue.typeOf, GoType.kind, GoType.elem,
    newStructInfo, structInfo.FieldOk, GoType.fieldByName, lookup_typeOfFields, h]

theorem decodeFields_fst :
    ∀ (fts : List (String × GoType)) (jfs : List (String × Json))
      (fs : List (String × GoValue)),
      decodeFields fts jfs = some fs → fs.map Prod.fst = fts.map Prod.fst := by
  intro fts
  induction fts with
  | nil =>
    intro jfs fs h
    rw [decodeFields] at h
    simp only [Option.some.injEq] at h
    subst h
    rfl
  | cons g gts ih =>
    intro jfs fs h
    obtain ⟨name, t⟩ := g
    rw [decodeFields] at h
    cases hiv : (match jfs.lookup name with
        | none => some (zeroValue t)
        | some j => decodeInto t j) with
    | none => rw [hiv] at h; simp at h
    | some w =>
      rw [hiv] at h
      cases hdf : decodeFields gts jfs with
      | none => rw [hdf] at h; simp at h
      | some rest =>
        rw [hdf] at h
        simp only [Option.some.injEq] at h
        subst h
        simp [ih jfs rest hdf]

/-- C3: saving a record that fails validation returns the validation
error unchanged and leaves the file system exactly as it was: an
existing destination keeps its content, a missing one is not created. -/
theorem saveConfig_invalid_leaves_fs (v : Option GoValue) (dest : String) (fs : FS)
    (e : VError) (h : CheckData v = some (.error e)) :
    SaveConfig v dest fs = some (.error e, fs) := by
  simp [SaveConfig, h]

/-- Witness for C3 at a concrete invalid record. -/
theorem saveConfig_invalid_witness :
    CheckData (some (.int 0)) = some (.error .notARecord) ∧
    SaveConfig (some (.int 0)) "cfg.json" (fun _ => none) =
      some (.error .notARecord, fun _ => none) :=
  ⟨rfl, saveConfig_invalid_leaves_fs _ _ _ _ rfl⟩

/-- C5: on a source path with no file, both `GetVersion` and
`LoadConfig` return the `notFound` error kind. -/
theorem notFound_on_absent_source (src : String) (fs : FS) (T : GoType)
    (h : fs src = none) :
    GetVersion src fs = .error .notFound ∧
    LoadConfig T src fs = some (.error .notFound) := by
  constructor
  · simp [GetVersion, h]
  · simp [LoadConfig, h]

/-- Witness for C5 at a concrete empty file system. -/
theorem notFound_witness :
    ((fun _ => none : FS) "missing.json" = none) ∧
    GetVersion "missing.json" (fun _ => none) = .error .notFound ∧
    LoadConfig (.struct_ "S" []) "missing.json" (fun _ => none) =
      some (.error .notFound) :=
  ⟨rfl, (notFound_on_absent_source "missing.json" (fun _ => none) (.struct_ "S" []) rfl).1,
    (notFound_on_absent_source "missing.json" (fun _ => none) (.struct_ "S" []) rfl).2⟩

/-- C4: the operation `GetVersion` succeeds on any stored encoding that parses to an
object carrying a textual `Version` field, returning that field's
value, with no target shape supplied by the caller. -/
theorem getVersion_peeks (src : String) (fs : FS) (content : List Char)
    (fields : List (String × Json)) (s : String)
    (hfs : fs src = some content)
    (hparse : parseJson (normCRLF content) = some (.obj fields))
    (hv : fields.lookup "Version" = some (.str s)) :
    GetVersion src fs = .ok s := by
  simp [GetVersion, hfs, hparse, hv]

/-- C6: content differing only in line-ending convention decodes
identically: for CR-free content, the CRLF-converted copy and the
original produce the same `LoadConfig` and `GetVersion` results. -/
theorem decode_lineEnding_invariant (T : GoType) (path : String) (fs1 fs2 : FS)
    (c : List Char) (hcr : '\r' ∉ c)
    (h1 : fs1 path = some (toCRLF c)) (h2 : fs2 path = some c) :
    LoadConfig T path fs1 = LoadConfig T path fs2 ∧
    GetVersion path fs1 = GetVersion path fs2 := by
  have hn : normCRLF (toCRLF c) = normCRLF c := by
    rw [normCRLF_toCRLF c hcr, normCRLF_no_cr c hcr]
  constructor
  · simp only [LoadConfig, h1, h2, hn]
  · simp only [GetVersion, h1, h2, hn]

/-- C1: a record that passes validation, saved and then loaded back
with its own shape, is reproduced field for field.  `wfV` is Go's
typing invariant (values match their declared types, struct field
names are unique); `ptrOK` is the stored encoding's fidelity caveat
from the spec (a textual `null` cannot distinguish a nil pointer from
a pointer to a nil pointer). -/
theorem save_load_round_trip (R : GoValue) (dest : String) (fs : FS)
    (hwf : wfV R) (hok : ptrOK R)
    (hchk : CheckData (some R) = some (.ok ())) :
    SaveConfig (some R) dest fs =
      some (.ok (), fs.write dest (printJson (encode R))) ∧
    LoadConfig R.typeOf dest (fs.write dest (printJson (encode R))) = some (.ok R) := by
  constructor
  · simp [SaveConfig, hchk]
  · have hfile : (fs.write dest (printJson (encode R))) dest = some (printJson (encode R)) := by
      simp [FS.write]
    have hnorm : normCRLF (printJson (encode R)) = printJson (encode R) :=
      normCRLF_no_cr _ (cr_not_printJson _)
    simp only [LoadConfig, hfile, hnorm, parseJson_printJson,
      decode_encode R hwf hok, hchk]

/-- C7: the operation `LoadConfig` validates the record it produced before returning
it, so every record it returns passes `CheckData`; and when the target
shape itself has no `Version` field, any content that decodes into
that shape is rejected with the missing-field validation error. -/
theorem load_validates_produced_record :
    (∀ (T : GoType) (src : String) (fs : FS) (v : GoValue),
        LoadConfig T src fs = some (.ok v) → CheckData (some v) = some (.ok ())) ∧
    (∀ (name : String) (fts : List (String × GoType)) (src : String) (fs : FS)
        (content : List Char) (j : Json) (v : GoValue),
        "Version" ∉ fts.map Prod.fst →
        fs src = some content →
        parseJson (normCRLF content) = some j →
        decodeInto (.struct_ name fts) j = some v →
        LoadConfig (.struct_ name fts) src fs = some (.error .missingVersionField)) := by
  constructor
  · intro T src fs v h
    cases hfs : fs src with
    | none => simp [LoadConfig, hfs] at h
    | some content =>
      cases hp : parseJson (normCRLF content) with
      | none => simp [LoadConfig, hfs, hp] at h
      | some j =>
        cases hd : decodeInto T j with
        | none => simp [LoadConfig, hfs, hp, hd] at h
        | some w =>
          cases hc : CheckData (some w) with
          | none => simp [LoadConfig, hfs, hp, hd, hc] at h
          | some r =>
            cases r with
            | error e => simp [LoadConfig, hfs, hp, hd, hc] at h
            | ok u =>
              simp only [LoadConfig, hfs, hp, hd, hc] at h
              simp only [Option.some.injEq, Except.ok.injEq] at h
              subst h
              cases u
              exact hc
  · intro name fts src fs content j v hnv hfs hp hd
    cases j with
    | obj jfs =>
      have hd2 := hd
      rw [decodeInto] at hd2
      cases hdf : decodeFields fts jfs with
      | none => rw [hdf] at hd2; simp at hd2
      | some fs2 =>
        rw [hdf] at hd2
        simp only [Option.some.injEq] at hd2
        have hlk : fs2.lookup "Version" = none := by
          apply lookup_none_of_not_fst
          rw [decodeFields_fst fts jfs fs2 hdf]
          exact hnv
        have hcd := checkData_struct_no_version name fs2 hlk
        rw [← hd2] at hd
        simp [LoadConfig, hfs, hp, hd, hcd]
    | null => simp [decodeInto] at hd
    | bool b => simp [decodeInto] at hd
    | num n => simp [decodeInto] at hd
    | str s => simp [decodeInto] at hd
    | arr a => simp [decodeInto] at hd

/-- Witness for C4 at a concrete encoding with `Version: "2"` and an
arbitrary extra field. -/
theorem getVersion_witness :
    ((fun p => if p = "cfg.json" then
        some (printJson (.obj [("Version", .str "2"), ("Extra", .num 5)])) else none : FS)
      "cfg.json" = some (printJson (.obj [("Version", .str "2"), ("Extra", .num 5)]))) ∧
    parseJson (normCRLF (printJson (.obj [("Version", .str "2"), ("Extra", .num 5)]))) =
      some (.obj [("Version", .str "2"), ("Extra", .num 5)]) ∧
    ([("Version", Json.str "2"), ("Extra", Json.num 5)].lookup "Version" =
      some (.str "2")) ∧
    GetVersion "cfg.json"
      (fun p => if p = "cfg.json" then
        some (printJson (.obj [("Version", .str "2"), ("Extra", .num 5)])) else none) =
      .ok "2" :=
  ⟨by simp, by rfl, by rfl,
    getVersion_peeks "cfg.json"
      (fun p => if p = "cfg.json" then
        some (printJson (.obj [("Version", .str "2"), ("Extra", .num 5)])) else none)
      (printJson (.obj [("Version", .str "2"), ("Extra", .num 5)]))
      [("Version", Json.str "2"), ("Extra", Json.num 5)] "2"
      (by simp) (by rfl) (by rfl)⟩

/-- Witness for C6 at a concrete stored encoding containing newlines. -/
theorem decode_lineEnding_witness :
    ('\r' ∉ printJson (.obj [("Version", Json.str "1")])) ∧
    LoadConfig (.struct_ "V" [("Version", .string)]) "s.json"
        (fun p => if p = "s.json" then
          some (toCRLF (printJson (.obj [("Version", Json.str "1")]))) else none) =
      LoadConfig (.struct_ "V" [("Version", .string)]) "s.json"
        (fun p => if p = "s.json" then
          some (printJson (.obj [("Version", Json.str "1")])) else none) ∧
    GetVersion "s.json"
        (fun p => if p = "s.json" then
          some (toCRLF (printJson (.obj [("Version", Json.str "1")]))) else none) =
      GetVersion "s.json"
        (fun p => if p = "s.json" then
          some (printJson (.obj [("Version", Json.str "1")])) else none) := by
  have hcr : '\r' ∉ printJson (.obj [("Version", Json.str "1")]) := by decide
  have h := decode_lineEnding_invariant (.struct_ "V" [("Version", .string)]) "s.json"
    (fun p => if p = "s.json" then
      some (toCRLF (printJson (.obj [("Version", Json.str "1")]))) else none)
    (fun p => if p = "s.json" then
      some (printJson (.obj [("Version", Json.str "1")])) else none)
    (printJson (.obj [("Version", Json.str "1")])) hcr (by simp) (by simp)
  exact ⟨hcr, h.1, h.2⟩

/-- Witness for C1 at a concrete configuration record. -/
theorem save_load_round_trip_witness :
    wfV (.struct_ "AppConfig" [("Version", .str "1"), ("Debug", .bool false),
      ("MaxRetries", .int 3), ("AllowedHosts", .slice .string [.str "localhost"])]) ∧
    ptrOK (.struct_ "AppConfig" [("Version", .str "1"), ("Debug", .bool false),
      ("MaxRetries", .int 3), ("AllowedHosts", .slice .string [.str "localhost"])]) ∧
    CheckData (some (.struct_ "AppConfig" [("Version", .str "1"), ("Debug", .bool false),
      ("MaxRetries", .int 3), ("AllowedHosts", .slice .string [.str "localhost"])])) =
      some (.ok ()) ∧
    (SaveConfig (some (.struct_ "AppConfig" [("Version", .str "1"), ("Debug", .bool false),
        ("MaxRetries", .int 3), ("AllowedHosts", .slice .string [.str "localhost"])]))
        "app.json" (fun _ => none) =
      some (.ok (), FS.write (fun _ => none) "app.json"
        (printJson (encode (.struct_ "AppConfig" [("Version", .str "1"),
          ("Debug", .bool false), ("MaxRetries", .int 3),
          ("AllowedHosts", .slice .string [.str "localhost"])]))))) ∧
    LoadConfig (GoValue.struct_ "AppConfig" [("Version", .str "1"), ("Debug", .bool false),
        ("MaxRetries", .int 3),
        ("AllowedHosts", .slice .string [.str "localhost"])]).typeOf
        "app.json" (FS.write (fun _ => none) "app.json"
          (printJson (encode (.struct_ "AppConfig" [("Version", .str "1"),
            ("Debug", .bool false), ("MaxRetries", .int 3),
            ("AllowedHosts", .slice .string [.str "localhost"])])))) =
      some (.ok (.struct_ "AppConfig" [("Version", .str "1"), ("Debug", .bool false),
        ("MaxRetries", .int 3), ("AllowedHosts", .slice .string [.str "localhost"])])) := by
  have hwf : wfV (.struct_ "AppConfig" [("Version", .str "1"), ("Debug", .bool false),
      ("MaxRetries", .int 3), ("AllowedHosts", .slice .string [.str "localhost"])]) := by
    simp [wfV, wfFields, wfElems, GoValue.typeOf]
  have hok : ptrOK (.struct_ "AppConfig" [("Version", .str "1"), ("Debug", .bool false),
      ("MaxRetries", .int 3), ("AllowedHosts", .slice .string [.str "localhost"])]) := by
    simp [ptrOK, ptrOKFields, ptrOKList]
  have hchk : CheckData (some (.struct_ "AppConfig" [("Version", .str "1"),
      ("Debug", .bool false), ("MaxRetries", .int 3),
      ("AllowedHosts", .slice .string [.str "localhost"])])) = some (.ok ()) := rfl
  have h := save_load_round_trip (.struct_ "AppConfig" [("Version", .str "1"),
    ("Debug", .bool false), ("MaxRetries", .int 3),
    ("AllowedHosts", .slice .string [.str "localhost"])]) "app.json" (fun _ => none)
    hwf hok hchk
  exact ⟨hwf, hok, hchk, h.1, h.2⟩

/-- Witness for C7: a concrete successful load whose result passes
validation, and a concrete shape without `Version` that is rejected. -/
theorem load_validates_witness :
    (LoadConfig (GoValue.struct_ "V" [("Version", .str "1")]).typeOf "a.json"
        (FS.write (fun _ => none) "a.json"
          (printJson (encode (.struct_ "V" [("Version", .str "1")])))) =
      some (.ok (.struct_ "V" [("Version", .str "1")]))) ∧
    CheckData (some (.struct_ "V" [("Version", GoValue.str "1")])) = some (.ok ()) ∧
    ("Version" ∉ [("Name", GoType.string)].map Prod.fst) ∧
    decodeInto (.struct_ "Cfg" [("Name", .string)]) (.obj []) =
      some (.struct_ "Cfg" [("Name", .str "")]) ∧
    LoadConfig (.struct_ "Cfg" [("Name", .string)]) "b.json"
        (fun p => if p = "b.json" then some (printJson (.obj [])) else none) =
      some (.error .missingVersionField) := by
  have hwf : wfV (.struct_ "V" [("Version", GoValue.str "1")]) := by
    simp [wfV, wfFields]
  have hok : ptrOK (.struct_ "V" [("Version", GoValue.str "1")]) := by
    simp [ptrOK, ptrOKFields]
  have hchk : CheckData (some (.struct_ "V" [("Version", GoValue.str "1")])) =
      some (.ok ()) := rfl
  have hfile : (FS.write (fun _ => none) "a.json"
      (printJson (encode (.struct_ "V" [("Version", GoValue.str "1")])))) "a.json" =
      some (printJson (encode (.struct_ "V" [("Version", GoValue.str "1")]))) := by
    simp [FS.write]
  have hload : LoadConfig (GoValue.struct_ "V" [("Version", .str "1")]).typeOf "a.json"
      (FS.write (fun _ => none) "a.json"
        (printJson (encode (.struct_ "V" [("Version", .str "1")])))) =
      some (.ok (.struct_ "V" [("Version", .str "1")])) := by
    simp only [LoadConfig, hfile, normCRLF_no_cr _ (cr_not_printJson _),
      parseJson_printJson, decode_encode _ hwf hok, hchk]
  have hdec : decodeInto (.struct_ "Cfg" [("Name", .string)]) (.obj []) =
      some (.struct_ "Cfg" [("Name", .str "")]) := by
    simp [decodeInto, decodeFields, zeroValue, zeroFields, List.lookup]
  refine ⟨hload, load_validates_produced_record.1 _ _ _ _ hload, by decide, hdec, ?_⟩
  exact load_validates_produced_record.2 "Cfg" [("Name", .string)] "b.json"
    (fun p => if p = "b.json" then some (printJson (.obj [])) else none)
    (printJson (.obj [])) (.obj []) (.struct_ "Cfg" [("Name", .str "")])
    (by decide) (by simp) (by rfl) hdec

end VConfig
